import Mathlib

/-!
Verification of the smart-store analytics pipeline
(`src/analytics_project`): warehouse schema creation, ETL loading,
data-preparation cleaning steps and their orchestration.

Each Python function relevant to the checked properties is shallowly
embedded as an executable Lean definition; theorems about those
definitions settle the corresponding specification claims.
-/

set_option maxHeartbeats 1000000

namespace Analytics

/-! ## Warehouse schema DDL (`create_warehouse.py`, `create_warehouse_schema`)

`create_warehouse_schema` opens a connection and executes a fixed list
of DDL statements in order, then commits.  We embed the statement list
verbatim. -/

/-- One DDL statement executed by the schema script. -/
inductive DDL where
  | dropTableIfExists (n : String)
  | dropIndexIfExists (n : String)
  | createTable (n : String)
  | createIdx (n : String) (table : String)
  deriving DecidableEq, Repr

/-- The exact sequence of DDL statements executed by
`create_warehouse_schema` (lines 45-128 of `create_warehouse.py`). -/
def createWarehouseSchemaDDL : List DDL :=
  [ .dropTableIfExists "fact_sales"
  , .dropTableIfExists "dim_customers"
  , .dropTableIfExists "dim_products"
  , .dropTableIfExists "dim_dates"
  , .dropIndexIfExists "idx_customers_customer_id"
  , .dropIndexIfExists "idx_products_product_id"
  , .dropIndexIfExists "idx_dates_full_date"
  , .dropIndexIfExists "idx_sales_customer_key"
  , .dropIndexIfExists "idx_sales_product_key"
  , .dropIndexIfExists "idx_sales_date_key"
  , .dropIndexIfExists "idx_sales_transaction_id"
  , .createTable "dim_customers"
  , .createTable "dim_products"
  , .createTable "dim_dates"
  , .createTable "fact_sales"
  , .createIdx "idx_customers_customer_id" "dim_customers"
  , .createIdx "idx_products_product_id" "dim_products"
  , .createIdx "idx_dates_full_date" "dim_dates"
  , .createIdx "idx_sales_customer_key" "fact_sales"
  , .createIdx "idx_sales_product_key" "fact_sales"
  , .createIdx "idx_sales_date_key" "fact_sales"
  , .createIdx "idx_sales_transaction_id" "fact_sales"
  ]

/-- The table created by a DDL statement, if any. -/
def DDL.createdTable : DDL → Option String
  | .createTable n => some n
  | _ => none

/-- The index created by a DDL statement, if any. -/
def DDL.createdIndex : DDL → Option String
  | .createIdx n _ => some n
  | _ => none

/-- The table dropped by a DDL statement, if any. -/
def DDL.droppedTable : DDL → Option String
  | .dropTableIfExists n => some n
  | _ => none

/-- The index dropped by a DDL statement, if any. -/
def DDL.droppedIndex : DDL → Option String
  | .dropIndexIfExists n => some n
  | _ => none

/-- Tables created by one invocation of the schema script. -/
def createdTableNames : List String :=
  createWarehouseSchemaDDL.filterMap DDL.createdTable

/-- Indexes created by one invocation of the schema script. -/
def createdIndexNames : List String :=
  createWarehouseSchemaDDL.filterMap DDL.createdIndex

/-! ## ETL loader table targets (`load_warehouse.py`)

`clear_warehouse_data` issues four DELETE statements; each `load_*`
step appends (via `DataFrame.to_sql(..., if_exists='append')`) to one
target table.  We embed the table names these statements reference. -/

/-- Tables targeted by the DELETE statements of `clear_warehouse_data`
(lines 27-30 of `load_warehouse.py`), in execution order. -/
def clearWarehouseDeleteTargets : List String :=
  ["sales", "customers", "products", "dates"]

/-- Table into which `load_customers` appends. -/
def loadCustomersTargetTable : String := "customers"

/-- Table into which `load_products` appends. -/
def loadProductsTargetTable : String := "products"

/-- Table into which `load_dates` appends. -/
def loadDatesTargetTable : String := "dates"

/-- Table into which `load_sales` appends its fact rows. -/
def loadSalesTargetTable : String := "sales"

end Analytics

namespace Analytics

/-- C1: `create_warehouse_schema` executes a single static DDL list that
drops exactly the four star-schema tables and seven indexes and creates
exactly the four tables `dim_customers`, `dim_products`, `dim_dates`,
`fact_sales` and exactly seven indexes, each exactly once; no other
table or index is created. -/
theorem createWarehouseSchema_ddl_static :
    createdTableNames = ["dim_customers", "dim_products", "dim_dates", "fact_sales"] ∧
    createdIndexNames.length = 7 ∧
    createdIndexNames.Nodup ∧
    createWarehouseSchemaDDL.filterMap DDL.droppedTable =
      ["fact_sales", "dim_customers", "dim_products", "dim_dates"] ∧
    (createWarehouseSchemaDDL.filterMap DDL.droppedIndex).length = 7 ∧
    createWarehouseSchemaDDL.Nodup := by
  decide

/-- C2: the ETL loader does not operate on the tables the schema script
creates.  Every table referenced by `clear_warehouse_data` and every
append target of the `load_*` steps (`sales`, `customers`, `products`,
`dates`) is absent from the tables created by
`create_warehouse_schema` (`dim_customers`, `dim_products`,
`dim_dates`, `fact_sales`); in particular the first DELETE of the load
run targets the nonexistent table `sales`. -/
theorem loadWarehouse_targets_not_created_by_schema :
    (clearWarehouseDeleteTargets.all (fun t => !(createdTableNames.contains t)) = true) ∧
    loadSalesTargetTable ∉ createdTableNames ∧
    loadCustomersTargetTable ∉ createdTableNames ∧
    loadProductsTargetTable ∉ createdTableNames ∧
    loadDatesTargetTable ∉ createdTableNames ∧
    clearWarehouseDeleteTargets.headI = "sales" := by
  decide

/-! ## Orchestration (`run_all_data_prep.py`, `run_data_prep_pipeline`)

The pipeline runs the three cleaning scripts as subprocesses in a fixed
order; each run ends in success, a `CalledProcessError` (nonzero exit)
or a `FileNotFoundError`.  The returned exit code is 1 when any script
did not succeed and 0 otherwise. -/

/-- Outcome of running one cleaning script as a subprocess. -/
inductive ScriptOutcome where
  | success
  | failed (stderr : String)
  | notFound
  deriving DecidableEq, Repr

/-- The scripts invoked by `run_data_prep_pipeline`, in execution
order (lines 41-45 of `run_all_data_prep.py`). -/
def prepScripts : List String :=
  ["prepare_customers.py", "prepare_products.py", "prepare_sales.py"]

/-- Number of scripts whose recorded status is not SUCCESS (the
`failed_count` accumulated over the results dictionary; the three
script names are distinct, so the dictionary has one entry per
script). -/
def prepFailedCount (run : String → ScriptOutcome) : Nat :=
  (prepScripts.filter (fun s => run s ≠ ScriptOutcome.success)).length

/-- Return value of `run_data_prep_pipeline`: 1 when `failed_count > 0`,
otherwise 0 (lines 159-164). `main` passes this value to `sys.exit`. -/
def runDataPrepPipeline (run : String → ScriptOutcome) : Nat :=
  if 0 < prepFailedCount run then 1 else 0

/-! ## ETL entry point (`load_warehouse.py`, `main`)

`main` wraps the six ETL steps in a single `try`: on any exception it
logs the error and re-raises; otherwise the steps run once each, in
order.  We model each step's behaviour by an environment assigning it
a result, and record the executed steps, the logged error messages and
the final result. -/

/-- The six steps of the ETL run. -/
inductive EtlStep where
  | clearStep
  | customersStep
  | productsStep
  | datesStep
  | salesStep
  | verifyStep
  deriving DecidableEq, Repr

/-- The step order fixed by `main` (lines 264-277 of
`load_warehouse.py`). -/
def etlStepOrder : List EtlStep :=
  [.clearStep, .customersStep, .productsStep, .datesStep, .salesStep, .verifyStep]

/-- Observable outcome of one ETL run: the steps that were started, the
messages passed to `logger.error`, and the final result (`ok` for
normal completion, `error` for an exception propagating out). -/
structure EtlOutcome where
  executed : List EtlStep
  errors : List String
  result : Except String Unit
  deriving Repr

/-- Run the steps in order, stopping at the first exception. -/
def runEtlSteps (run : EtlStep → Except String Unit) :
    List EtlStep → List EtlStep × Except String Unit
  | [] => ([], .ok ())
  | s :: rest =>
    match run s with
    | .ok _ =>
      let (ex, r) := runEtlSteps run rest
      (s :: ex, r)
    | .error e => ([s], .error e)

/-- `main` of `load_warehouse.py`: execute the steps inside one `try`;
on an exception, log it via `logger.error` and re-raise it. -/
def etlMain (run : EtlStep → Except String Unit) : EtlOutcome :=
  match runEtlSteps run etlStepOrder with
  | (ex, .ok _) => ⟨ex, [], .ok ()⟩
  | (ex, .error e) => ⟨ex, [e], .error e⟩

/-! ## CSV reading (`read_raw_data` in the three preparation scripts)

`prepare_customers.read_raw_data` wraps `pd.read_csv` in a
`try`/`except` that turns `FileNotFoundError` and any other exception
into an empty DataFrame; the products and sales versions call
`pd.read_csv` with no handler, so read errors propagate. -/

/-- Result of attempting to read a CSV file from the raw-data
directory. -/
inductive ReadOutcome (α : Type) where
  | ok (df : α)
  | fileNotFound
  | readError (msg : String)
  deriving DecidableEq, Repr

/-- `read_raw_data` of `prepare_customers.py` (lines 62-73): returns
the parsed frame, or an empty frame on `FileNotFoundError` or any
other exception. -/
def readRawDataCustomers {ρ : Type} (fs : String → ReadOutcome (List ρ))
    (fileName : String) : List ρ :=
  match fs fileName with
  | .ok df => df
  | .fileNotFound => []
  | .readError _ => []

/-- `read_raw_data` of `prepare_products.py` (lines 66-119): the
`pd.read_csv` call has no exception handler, so errors propagate
(the profiling code only logs). -/
def readRawDataProducts {ρ : Type} (fs : String → ReadOutcome (List ρ))
    (fileName : String) : Except String (List ρ) :=
  match fs fileName with
  | .ok df => .ok df
  | .fileNotFound => .error "FileNotFoundError"
  | .readError m => .error m

/-- `read_raw_data` of `prepare_sales.py`: same unguarded
`pd.read_csv` call as the products version. -/
def readRawDataSales {ρ : Type} (fs : String → ReadOutcome (List ρ))
    (fileName : String) : Except String (List ρ) :=
  match fs fileName with
  | .ok df => .ok df
  | .fileNotFound => .error "FileNotFoundError"
  | .readError m => .error m

end Analytics

namespace Analytics

theorem runEtlSteps_fst_isPrefix (run : EtlStep → Except String Unit) :
    ∀ l : List EtlStep, (runEtlSteps run l).1 <+: l := by
  intro l
  induction l with
  | nil => simp [runEtlSteps]
  | cons s rest ih =>
    cases h : run s with
    | ok u => simpa [runEtlSteps, h] using ih
    | error e => simp [runEtlSteps, h]

theorem runEtlSteps_ok_iff (run : EtlStep → Except String Unit) :
    ∀ l : List EtlStep,
      (runEtlSteps run l).2 = .ok () ↔ ∀ s ∈ l, run s = .ok () := by
  intro l
  induction l with
  | nil => simp [runEtlSteps]
  | cons s rest ih =>
    cases h : run s with
    | ok u => simp [runEtlSteps, h, ih]
    | error e => simp [runEtlSteps, h]

theorem runEtlSteps_all_ok (run : EtlStep → Except String Unit)
    (l : List EtlStep) (h : ∀ s ∈ l, run s = .ok ()) :
    runEtlSteps run l = (l, .ok ()) := by
  induction l with
  | nil => simp [runEtlSteps]
  | cons s rest ih =>
    have hs : run s = .ok () := h s (List.mem_cons_self s rest)
    rw [runEtlSteps, hs, ih (fun t ht => h t (List.mem_cons_of_mem s ht))]

theorem runEtlSteps_error_mem (run : EtlStep → Except String Unit) :
    ∀ (l : List EtlStep) (e : String),
      (runEtlSteps run l).2 = .error e →
      ∃ s ∈ (runEtlSteps run l).1, run s = .error e := by
  intro l
  induction l with
  | nil => intro e h; simp [runEtlSteps] at h
  | cons s rest ih =>
    intro e h
    cases hs : run s with
    | ok u =>
      rw [runEtlSteps, hs] at h ⊢
      obtain ⟨t, ht, hte⟩ := ih e h
      exact ⟨t, List.mem_cons_of_mem s ht, hte⟩
    | error e' =>
      rw [runEtlSteps, hs] at h ⊢
      simp at h
      exact ⟨s, by simp, by rw [hs, h]⟩

/-- C3: the ETL entry point starts the steps in the fixed order with no
retry or resume (the executed trace is always a prefix of the step
order); if every step succeeds it completes all six steps in order
with no error logged; and whenever any step raises, the run ends in an
error, the propagated exception is exactly the one some executed step
raised, and it is logged exactly once. -/
theorem etlMain_error_propagation (run : EtlStep → Except String Unit) :
    (etlMain run).executed <+: etlStepOrder ∧
    ((∀ s ∈ etlStepOrder, run s = .ok ()) →
      etlMain run = ⟨etlStepOrder, [], .ok ()⟩) ∧
    ((etlMain run).result = .ok () ↔ ∀ s ∈ etlStepOrder, run s = .ok ()) ∧
    (∀ e, (etlMain run).result = .error e →
      (etlMain run).errors = [e] ∧
      ∃ s ∈ (etlMain run).executed, run s = .error e) := by
  refine ⟨?_, ?_, ?_, ?_⟩
  · unfold etlMain
    rcases h : runEtlSteps run etlStepOrder with ⟨ex, r⟩
    have := runEtlSteps_fst_isPrefix run etlStepOrder
    rw [h] at this
    cases r <;> simpa using this
  · intro hok
    unfold etlMain
    rw [runEtlSteps_all_ok run etlStepOrder hok]
  · unfold etlMain
    rcases h : runEtlSteps run etlStepOrder with ⟨ex, r⟩
    have hiff := runEtlSteps_ok_iff run etlStepOrder
    rw [h] at hiff
    cases r with
    | ok u => simpa using hiff
    | error e =>
      simp only at hiff ⊢
      constructor
      · intro hc; exact absurd hc (by simp)
      · intro hall
        exact absurd (hiff.mpr hall) (by simp)
  · intro e he
    unfold etlMain at he ⊢
    rcases h : runEtlSteps run etlStepOrder with ⟨ex, r⟩
    rw [h] at he
    cases r with
    | ok u => simp at he
    | error e' =>
      simp at he
      have hm := runEtlSteps_error_mem run etlStepOrder e'
      rw [h] at hm
      obtain ⟨s, hs, hse⟩ := hm rfl
      exact ⟨by rw [he], s, hs, by rw [hse, he]⟩

/-- Witness for C3: with every step succeeding, the run completes all
six steps in order; instantiating the failure clause at a concrete
failing environment propagates the clear-step exception. -/
theorem etlMain_error_propagation_witness :
    etlMain (fun _ => .ok ()) = ⟨etlStepOrder, [], .ok ()⟩ ∧
    (etlMain (fun _ => .error "boom")).errors = ["boom"] := by
  constructor
  · exact (etlMain_error_propagation (fun _ => .ok ())).2.1 (fun s _ => rfl)
  · exact ((etlMain_error_propagation (fun _ => .error "boom")).2.2.2 "boom" rfl).1

/-- C4: `run_data_prep_pipeline` invokes the three cleaning scripts in
the fixed order customers, products, sales, and returns exit code 0
exactly when all three subprocesses succeed and exit code 1 exactly
when at least one failed or was not found. -/
theorem runDataPrepPipeline_exit_code (run : String → ScriptOutcome) :
    prepScripts = ["prepare_customers.py", "prepare_products.py", "prepare_sales.py"] ∧
    (runDataPrepPipeline run = 0 ↔ ∀ s ∈ prepScripts, run s = .success) ∧
    (runDataPrepPipeline run = 1 ↔ ∃ s ∈ prepScripts, run s ≠ .success) := by
  refine ⟨rfl, ?_, ?_⟩
  · unfold runDataPrepPipeline prepFailedCount
    rcases h : prepScripts.filter (fun s => run s ≠ ScriptOutcome.success) with _ | ⟨a, l⟩
    · simp only [h, List.length_nil]
      simp only [List.filter_eq_nil_iff] at h
      simpa using fun s hs => by
        have := h s hs
        simpa using this
    · simp only [h, List.length_cons]
      have ha : a ∈ prepScripts.filter (fun s => run s ≠ ScriptOutcome.success) := by
        rw [h]; exact List.mem_cons_self a l
      rw [List.mem_filter] at ha
      constructor
      · intro hc; exact absurd hc (by simp)
      · intro hall
        have := hall a ha.1
        rw [this] at ha
        simpa using ha.2
  · unfold runDataPrepPipeline prepFailedCount
    rcases h : prepScripts.filter (fun s => run s ≠ ScriptOutcome.success) with _ | ⟨a, l⟩
    · simp only [h, List.length_nil]
      simp only [List.filter_eq_nil_iff] at h
      constructor
      · intro hc; exact absurd hc (by simp)
      · rintro ⟨s, hs, hne⟩
        exact absurd (by simpa using h s hs) hne
    · simp only [h, List.length_cons]
      have ha : a ∈ prepScripts.filter (fun s => run s ≠ ScriptOutcome.success) := by
        rw [h]; exact List.mem_cons_self a l
      rw [List.mem_filter] at ha
      simp only [Nat.succ_pos, if_pos]
      exact ⟨fun _ => ⟨a, ha.1, by simpa using ha.2⟩, fun _ => by trivial⟩

/-- Witness for C4: all three scripts succeeding gives exit code 0, and
one failing script gives exit code 1. -/
theorem runDataPrepPipeline_exit_code_witness :
    runDataPrepPipeline (fun _ => .success) = 0 ∧
    runDataPrepPipeline
      (fun s => if s = "prepare_products.py" then .notFound else .success) = 1 := by
  constructor
  · exact (runDataPrepPipeline_exit_code (fun _ => .success)).2.1.mpr
      (fun s _ => rfl)
  · exact (runDataPrepPipeline_exit_code _).2.2.mpr
      ⟨"prepare_products.py", by decide, by decide⟩

/-- C8: the customers pipeline's `read_raw_data` is total: it returns
the parsed frame on a successful read and an empty frame on
`FileNotFoundError` or any other read error, never propagating;
whereas the products and sales versions propagate exactly the read
errors. -/
theorem readRawDataCustomers_total (fs : String → ReadOutcome (List Nat))
    (fileName : String) :
    (∀ df, fs fileName = .ok df →
      readRawDataCustomers fs fileName = df ∧
      readRawDataProducts fs fileName = .ok df ∧
      readRawDataSales fs fileName = .ok df) ∧
    ((∀ df, fs fileName ≠ .ok df) →
      readRawDataCustomers fs fileName = [] ∧
      (∃ e, readRawDataProducts fs fileName = .error e) ∧
      (∃ e, readRawDataSales fs fileName = .error e)) := by
  constructor
  · intro df h
    simp [readRawDataCustomers, readRawDataProducts, readRawDataSales, h]
  · intro h
    cases hf : fs fileName with
    | ok df => exact absurd hf (h df)
    | fileNotFound =>
      simp [readRawDataCustomers, readRawDataProducts, readRawDataSales, hf]
    | readError m =>
      simp [readRawDataCustomers, readRawDataProducts, readRawDataSales, hf]

/-- Witness for C8: a file system where the customers file is missing
still yields an empty frame from the customers reader, while the
products reader errors. -/
theorem readRawDataCustomers_total_witness :
    readRawDataCustomers (fun _ => (.fileNotFound : ReadOutcome (List Nat)))
      "customers_data.csv" = [] ∧
    readRawDataProducts (fun _ => (.fileNotFound : ReadOutcome (List Nat)))
      "products_data.csv" = .error "FileNotFoundError" := by
  have h := (readRawDataCustomers_total
      (fun _ => (.fileNotFound : ReadOutcome (List Nat))) "customers_data.csv").2
      (fun df hdf => by simp at hdf)
  exact ⟨h.1, rfl⟩

end Analytics

namespace Analytics

/-! ## Product deduplication (`prepare_products.py`, `remove_duplicates`)

With a `productid` column present the code calls
`df.drop_duplicates(subset=["productid"], keep="first")`, otherwise it
falls back to `df.drop_duplicates()` (exact row equality, keep first).
The preceding `duplicated()` calls only feed log messages.  pandas
`drop_duplicates(..., keep="first")` scans rows in order and keeps a
row exactly when its key has not appeared in an earlier row, keeping
the original order of the survivors. -/

/-- `DataFrame.drop_duplicates` with `keep="first"` under key
function `key`, carrying the set of keys already seen. -/
def dropDuplicatesBy {α β : Type} [DecidableEq β] (key : α → β) :
    List α → List β → List α
  | [], _ => []
  | x :: xs, seen =>
    if key x ∈ seen then dropDuplicatesBy key xs seen
    else x :: dropDuplicatesBy key xs (key x :: seen)

/-- `remove_duplicates` of `prepare_products.py` (lines 138-196):
dedupe by `productid` when that column is present (`pidKey = some key`
extracts it), else by whole-row equality.  The `duplicated()` counts
computed around the branch affect only logging. -/
def removeDuplicatesProducts {α β : Type} [DecidableEq α] [DecidableEq β]
    (pidKey : Option (α → β)) (df : List α) : List α :=
  match pidKey with
  | some key => dropDuplicatesBy key df []
  | none => dropDuplicatesBy (fun r => r) df []

theorem dropDuplicatesBy_sublist {α β : Type} [DecidableEq β] (key : α → β) :
    ∀ (df : List α) (seen : List β), (dropDuplicatesBy key df seen).Sublist df := by
  intro df
  induction df with
  | nil => intro seen; simp [dropDuplicatesBy]
  | cons a xs ih =>
    intro seen
    rw [dropDuplicatesBy]
    by_cases ha : key a ∈ seen
    · rw [if_pos ha]
      exact (ih seen).cons a
    · rw [if_neg ha]
      exact (ih (key a :: seen)).cons₂ a

theorem dropDuplicatesBy_mem_iff {α β : Type} [DecidableEq β] (key : α → β) :
    ∀ (df : List α) (seen : List β) (x : α),
      x ∈ dropDuplicatesBy key df seen ↔
        ∃ pre post, df = pre ++ x :: post ∧ key x ∉ seen ∧
          ∀ y ∈ pre, key y ≠ key x := by
  intro df
  induction df with
  | nil =>
    intro seen x
    simp [dropDuplicatesBy]
  | cons a xs ih =>
    intro seen x
    rw [dropDuplicatesBy]
    by_cases ha : key a ∈ seen
    · rw [if_pos ha, ih]
      constructor
      · rintro ⟨pre, post, hdf, hx, hpre⟩
        refine ⟨a :: pre, post, by rw [hdf, List.cons_append], hx, ?_⟩
        intro y hy
        rcases List.mem_cons.mp hy with rfl | hy'
        · exact fun hk => hx (hk ▸ ha)
        · exact hpre y hy'
      · rintro ⟨pre, post, hdf, hx, hpre⟩
        cases pre with
        | nil =>
          simp only [List.nil_append, List.cons.injEq] at hdf
          obtain ⟨rfl, rfl⟩ := hdf
          exact absurd ha hx
        | cons b pre' =>
          simp only [List.cons_append, List.cons.injEq] at hdf
          obtain ⟨rfl, hxs⟩ := hdf
          exact ⟨pre', post, hxs, hx,
            fun y hy => hpre y (List.mem_cons_of_mem _ hy)⟩
    · rw [if_neg ha, List.mem_cons, ih]
      constructor
      · rintro (rfl | ⟨pre, post, hdf, hx, hpre⟩)
        · exact ⟨[], xs, rfl, ha, by simp⟩
        · rw [List.mem_cons] at hx
          push_neg at hx
          refine ⟨a :: pre, post, by rw [hdf, List.cons_append], hx.2, ?_⟩
          intro y hy
          rcases List.mem_cons.mp hy with rfl | hy'
          · exact fun hk => hx.1 hk.symm
          · exact hpre y hy'
      · rintro ⟨pre, post, hdf, hx, hpre⟩
        cases pre with
        | nil =>
          simp only [List.nil_append, List.cons.injEq] at hdf
          obtain ⟨rfl, _⟩ := hdf
          exact Or.inl rfl
        | cons b pre' =>
          simp only [List.cons_append, List.cons.injEq] at hdf
          obtain ⟨rfl, hxs⟩ := hdf
          refine Or.inr ⟨pre', post, hxs, ?_, ?_⟩
          · rw [List.mem_cons]
            push_neg
            exact ⟨(hpre a (List.mem_cons_self a pre')).symm, hx⟩
          · exact fun y hy => hpre y (List.mem_cons_of_mem _ hy)

theorem dropDuplicatesBy_keys_nodup {α β : Type} [DecidableEq β] (key : α → β) :
    ∀ (df : List α) (seen : List β),
      (∀ x ∈ dropDuplicatesBy key df seen, key x ∉ seen) ∧
      ((dropDuplicatesBy key df seen).map key).Nodup := by
  intro df
  induction df with
  | nil => intro seen; simp [dropDuplicatesBy]
  | cons a xs ih =>
    intro seen
    rw [dropDuplicatesBy]
    by_cases ha : key a ∈ seen
    · rw [if_pos ha]
      exact ih seen
    · rw [if_neg ha]
      obtain ⟨hnot, hnd⟩ := ih (key a :: seen)
      refine ⟨?_, ?_⟩
      · intro x hx
        rcases List.mem_cons.mp hx with rfl | hx'
        · exact ha
        · exact fun hs => hnot x hx' (List.mem_cons_of_mem _ hs)
      · rw [List.map_cons, List.nodup_cons]
        refine ⟨?_, hnd⟩
        intro hmem
        rw [List.mem_map] at hmem
        obtain ⟨y, hy, hky⟩ := hmem
        exact hnot y hy (hky ▸ List.mem_cons_self _ _)

/-- C9: with a `productid` column, `remove_duplicates` keeps exactly
the first row bearing each `productid` value (a later row is retained
iff no earlier row has the same `productid`), preserves relative row
order (the result is a sublist of the input), and leaves each
`productid` at most once; without the column it does the same with
whole-row equality as the key, i.e. removes exactly the rows equal to
an earlier row. -/
theorem removeDuplicatesProducts_keeps_first {α β : Type}
    [DecidableEq α] [DecidableEq β] (key : α → β) (df : List α) :
    (removeDuplicatesProducts (some key) df).Sublist df ∧
    (∀ x, x ∈ removeDuplicatesProducts (some key) df ↔
      ∃ pre post, df = pre ++ x :: post ∧ ∀ y ∈ pre, key y ≠ key x) ∧
    ((removeDuplicatesProducts (some key) df).map key).Nodup ∧
    (removeDuplicatesProducts (none : Option (α → β)) df).Sublist df ∧
    (∀ x, x ∈ removeDuplicatesProducts (none : Option (α → β)) df ↔
      ∃ pre post, df = pre ++ x :: post ∧ ∀ y ∈ pre, y ≠ x) ∧
    (removeDuplicatesProducts (none : Option (α → β)) df).Nodup := by
  refine ⟨?_, ?_, ?_, ?_, ?_, ?_⟩
  · exact dropDuplicatesBy_sublist key df []
  · intro x
    rw [removeDuplicatesProducts, dropDuplicatesBy_mem_iff key df [] x]
    simp only [List.not_mem_nil, not_false_iff, true_and]
  · exact (dropDuplicatesBy_keys_nodup key df []).2
  · exact dropDuplicatesBy_sublist (fun r => r) df []
  · intro x
    rw [removeDuplicatesProducts, dropDuplicatesBy_mem_iff (fun r => r) df [] x]
    simp only [List.not_mem_nil, not_false_iff, true_and]
  · have := (dropDuplicatesBy_keys_nodup (fun r => r) df []).2
    simpa using this

end Analytics

namespace Analytics

/-! ## Customer outlier removal (`prepare_customers.py`, `remove_outliers`)

The step applies five checks in a fixed order.  Checks 1, 2, 5 are row
filters; check 4 first rewrites `Region` with Python `str.title()` and
then filters on membership; check 3 converts the `CustomerSince`
column with `pd.to_datetime` inside a `try` block and filters on a
date window, but when the conversion raises (some value does not
parse) the whole check is skipped.  `customerSince` holds the parsed
timestamp as days since 1970-01-01, or `none` for an unparseable
value; `pd.to_datetime` on a column raises exactly when some entry is
unparseable. -/

/-- A customer record as seen by `remove_outliers`. -/
structure CustomerRow where
  customerID : Int
  customerName : String
  totalSpend : Rat
  customerSince : Option Int
  region : String
  customerStatus : String
  deriving DecidableEq, Repr

/-- 2015-01-01 as days since 1970-01-01 (the lower bound of the
`CustomerSince` window). -/
def date20150101 : Int := 16436

/-- The valid regions hardcoded in check 4. -/
def validRegions : List String := ["West", "East", "Central", "North", "South"]

/-- The valid statuses hardcoded in check 5. -/
def validStatuses : List String := ["Regular", "Inactive", "VIP", "New"]

/-- Python `str.title()` on a character list: the first letter of each
alphabetic run is uppercased, the rest lowercased; the Boolean records
whether the previous character was alphabetic. -/
def titleCaseGo : Bool → List Char → List Char
  | _, [] => []
  | prevAlpha, c :: cs =>
    if c.isAlpha then
      (if prevAlpha then c.toLower else c.toUpper) :: titleCaseGo true cs
    else
      c :: titleCaseGo false cs

/-- Python `str.title()` (`df["Region"].str.title()` in check 4). -/
def titleCase (s : String) : String := ⟨titleCaseGo false s.data⟩

/-- The `Region` rewrite of check 4. -/
def titleRegion (r : CustomerRow) : CustomerRow :=
  { r with region := titleCase r.region }

/-- The date-window predicate of check 3, applied after a successful
column conversion (`now` is `pd.Timestamp.now()`). -/
def custKeepDate (now : Int) (r : CustomerRow) : Bool :=
  match r.customerSince with
  | some d => decide (date20150101 ≤ d) && decide (d ≤ now)
  | none => false

/-- The five checks of `remove_outliers`. -/
inductive CustCheck where
  | idCheck
  | spendCheck
  | dateCheck
  | regionCheck
  | statusCheck
  deriving DecidableEq, Repr

/-- One check of `remove_outliers` (lines 162-206 of
`prepare_customers.py`).  The date check is skipped entirely when some
`CustomerSince` in the current frame does not parse, because
`pd.to_datetime` then raises and the `except` branch only logs. -/
def runCustCheck (now : Int) : CustCheck → List CustomerRow → List CustomerRow
  | .idCheck, df => df.filter (fun r => decide (0 < r.customerID))
  | .spendCheck, df =>
    df.filter (fun r => decide (0 ≤ r.totalSpend) && decide (r.totalSpend ≤ 50000))
  | .dateCheck, df =>
    if df.all (fun r => r.customerSince.isSome) then df.filter (custKeepDate now)
    else df
  | .regionCheck, df =>
    (df.map titleRegion).filter (fun r => validRegions.contains r.region)
  | .statusCheck, df =>
    df.filter (fun r => validStatuses.contains r.customerStatus)

/-- The order in which `remove_outliers` runs the checks. -/
def custCheckOrder : List CustCheck :=
  [.idCheck, .spendCheck, .dateCheck, .regionCheck, .statusCheck]

/-- Run a sequence of checks left to right. -/
def applyCustChecks (now : Int) (l : List CustCheck) (df : List CustomerRow) :
    List CustomerRow :=
  l.foldl (fun d c => runCustCheck now c d) df

/-- `remove_outliers` of `prepare_customers.py`: the five checks in
their implemented order. -/
def removeOutliersCustomers (now : Int) (df : List CustomerRow) : List CustomerRow :=
  applyCustChecks now custCheckOrder df

/-- The per-row retention predicate asserted by the claim: all five
hardcoded thresholds hold (CustomerID positive, TotalSpend in
[0, 50000], CustomerSince parsed and inside the window, title-cased
Region valid, CustomerStatus valid). -/
def custClaimKeep (now : Int) (r : CustomerRow) : Bool :=
  decide (0 < r.customerID) &&
  (decide (0 ≤ r.totalSpend) && decide (r.totalSpend ≤ 50000)) &&
  custKeepDate now r &&
  validRegions.contains (titleCase r.region) &&
  validStatuses.contains r.customerStatus

/-- Modelled from the claim text: the customers outlier step retains
exactly the rows satisfying all five thresholds (the retained rows
carry the title-cased `Region`). -/
def customersOutlierSpec (now : Int) (df : List CustomerRow) : List CustomerRow :=
  (df.filter (custClaimKeep now)).map titleRegion

/-- Retention by the four non-date checks only (what the code applies
when the date conversion raises). -/
def custClaimKeepNoDate (r : CustomerRow) : Bool :=
  decide (0 < r.customerID) &&
  (decide (0 ≤ r.totalSpend) && decide (r.totalSpend ≤ 50000)) &&
  validRegions.contains (titleCase r.region) &&
  validStatuses.contains r.customerStatus

/-- The outlier step with the date-window check skipped. -/
def customersOutlierSpecNoDate (df : List CustomerRow) : List CustomerRow :=
  (df.filter custClaimKeepNoDate).map titleRegion

end Analytics

namespace Analytics

theorem removeOutliersCustomers_eq_spec (now : Int) (df : List CustomerRow) :
    removeOutliersCustomers now df =
      if ((df.filter (fun r => decide (0 < r.customerID))).filter
            (fun r => decide (0 ≤ r.totalSpend) && decide (r.totalSpend ≤ 50000))).all
          (fun r => r.customerSince.isSome)
      then customersOutlierSpec now df
      else customersOutlierSpecNoDate df := by
  unfold removeOutliersCustomers applyCustChecks custCheckOrder
  simp only [List.foldl_cons, List.foldl_nil]
  simp only [runCustCheck]
  by_cases hall : ((df.filter (fun r => decide (0 < r.customerID))).filter
      (fun r => decide (0 ≤ r.totalSpend) && decide (r.totalSpend ≤ 50000))).all
      (fun r => r.customerSince.isSome)
  · rw [if_pos hall, if_pos hall]
    unfold customersOutlierSpec
    rw [List.filter_map, List.filter_map, List.filter_filter, List.filter_filter,
      List.filter_filter, List.filter_filter]
    refine congrArg (List.map titleRegion) (List.filter_congr (fun r _ => ?_))
    simp [custClaimKeep, titleRegion, Function.comp, Bool.and_comm, Bool.and_left_comm, Bool.and_assoc]
  · rw [if_neg hall, if_neg hall]
    unfold customersOutlierSpecNoDate
    rw [List.filter_map, List.filter_map, List.filter_filter, List.filter_filter,
      List.filter_filter]
    refine congrArg (List.map titleRegion) (List.filter_congr (fun r _ => ?_))
    simp [custClaimKeepNoDate, titleRegion, Function.comp, Bool.and_comm, Bool.and_left_comm, Bool.and_assoc]

end Analytics

namespace Analytics

/-- A row whose `CustomerSince` does not parse but which passes every
other check. -/
def custRowUnparseable : CustomerRow :=
  ⟨1, "Ann", 100, none, "West", "New"⟩

/-- A row whose `CustomerSince` parses to 2000-01-01 (day 10957),
outside the 2015 window, and which passes every other check. -/
def custRowStale : CustomerRow :=
  ⟨2, "Bob", 100, some 10957, "East", "Regular"⟩

/-- A row with an invalid (negative) `CustomerID` and an unparseable
`CustomerSince`. -/
def custRowBadID : CustomerRow :=
  ⟨-1, "Eve", 100, none, "West", "New"⟩

/-- A row with an invalid region and an unparseable `CustomerSince`. -/
def custRowBadRegion : CustomerRow :=
  ⟨1, "Dan", 100, none, "Atlantis", "New"⟩

/-- C5 (counterexample): on a frame containing one unparseable
`CustomerSince` and one 2000 date, `remove_outliers` retains both rows
(the raised `pd.to_datetime` exception skips the whole date check),
while the claimed retention (all five thresholds) would drop both, so
the claim as stated is false. -/
theorem removeOutliersCustomers_counterexample :
    removeOutliersCustomers 20000 [custRowUnparseable, custRowStale] ≠
      customersOutlierSpec 20000 [custRowUnparseable, custRowStale] ∧
    removeOutliersCustomers 20000 [custRowUnparseable, custRowStale] =
      [custRowUnparseable, custRowStale] ∧
    customersOutlierSpec 20000 [custRowUnparseable, custRowStale] = [] ∧
    custRowStale.customerSince = some 10957 ∧ (10957 : Int) < date20150101 := by
  decide

/-- C5 (amended): when every row surviving the CustomerID and
TotalSpend checks has a parseable `CustomerSince`, the customers
outlier step retains exactly the rows satisfying all five hardcoded
thresholds (with `Region` title-cased in the output); otherwise the
date-window check is skipped entirely and exactly the other four
checks determine retention. -/
theorem removeOutliersCustomers_threshold_retention (now : Int) (df : List CustomerRow) :
    removeOutliersCustomers now df =
      if ((df.filter (fun r => decide (0 < r.customerID))).filter
            (fun r => decide (0 ≤ r.totalSpend) && decide (r.totalSpend ≤ 50000))).all
          (fun r => r.customerSince.isSome)
      then customersOutlierSpec now df
      else customersOutlierSpecNoDate df :=
  removeOutliersCustomers_eq_spec now df

/-! ### Machinery for the order-insensitivity claim (C7) -/

theorem runCustCheck_allParse (now : Int) (c : CustCheck) (df : List CustomerRow)
    (h : ∀ r ∈ df, r.customerSince.isSome = true) :
    ∀ r ∈ runCustCheck now c df, r.customerSince.isSome = true := by
  intro r hr
  cases c with
  | idCheck =>
    simp only [runCustCheck] at hr
    exact h r (List.mem_filter.mp hr).1
  | spendCheck =>
    simp only [runCustCheck] at hr
    exact h r (List.mem_filter.mp hr).1
  | statusCheck =>
    simp only [runCustCheck] at hr
    exact h r (List.mem_filter.mp hr).1
  | dateCheck =>
    simp only [runCustCheck] at hr
    split at hr
    · exact h r (List.mem_filter.mp hr).1
    · exact h r hr
  | regionCheck =>
    simp only [runCustCheck] at hr
    obtain ⟨s, hs, rfl⟩ := List.mem_map.mp (List.mem_filter.mp hr).1
    simpa [titleRegion] using h s hs

/-- The row rewrite a check performs (only the region check rewrites). -/
def custCheckMap : CustCheck → CustomerRow → CustomerRow
  | .regionCheck => titleRegion
  | _ => id

/-- The per-row retention predicate of a check, expressed on the
original row (the region check reads the title-cased region). -/
def custCheckPred (now : Int) : CustCheck → CustomerRow → Bool
  | .idCheck => fun r => decide (0 < r.customerID)
  | .spendCheck => fun r => decide (0 ≤ r.totalSpend) && decide (r.totalSpend ≤ 50000)
  | .dateCheck => custKeepDate now
  | .regionCheck => fun r => validRegions.contains (titleCase r.region)
  | .statusCheck => fun r => validStatuses.contains r.customerStatus

theorem runCustCheck_eq_filter_map (now : Int) (c : CustCheck) (df : List CustomerRow)
    (h : ∀ r ∈ df, r.customerSince.isSome = true) :
    runCustCheck now c df = (df.filter (custCheckPred now c)).map (custCheckMap c) := by
  cases c with
  | idCheck => simp [runCustCheck, custCheckPred, custCheckMap]
  | spendCheck => simp [runCustCheck, custCheckPred, custCheckMap]
  | statusCheck => simp [runCustCheck, custCheckPred, custCheckMap]
  | dateCheck =>
    rw [runCustCheck, if_pos (List.all_eq_true.mpr h)]
    simp [custCheckPred, custCheckMap]
  | regionCheck =>
    rw [runCustCheck, List.filter_map]
    simp only [custCheckPred, custCheckMap]
    congr 1

theorem custCheckPred_map (now : Int) (c c' : CustCheck) (hne : c ≠ c')
    (r : CustomerRow) :
    custCheckPred now c (custCheckMap c' r) = custCheckPred now c r := by
  cases c' with
  | regionCheck =>
    cases c with
    | regionCheck => exact absurd rfl hne
    | idCheck => rfl
    | spendCheck => rfl
    | dateCheck => rfl
    | statusCheck => rfl
  | idCheck => rfl
  | spendCheck => rfl
  | dateCheck => rfl
  | statusCheck => rfl

theorem custCheckMap_comm (c c' : CustCheck) (r : CustomerRow) :
    custCheckMap c (custCheckMap c' r) = custCheckMap c' (custCheckMap c r) := by
  cases c <;> cases c' <;> rfl

theorem runCustCheck_comm (now : Int) (c c' : CustCheck) (df : List CustomerRow)
    (h : ∀ r ∈ df, r.customerSince.isSome = true) :
    runCustCheck now c (runCustCheck now c' df) =
      runCustCheck now c' (runCustCheck now c df) := by
  by_cases hcc : c = c'
  · rw [hcc]
  · have hc := runCustCheck_allParse now c df h
    have hc' := runCustCheck_allParse now c' df h
    rw [runCustCheck_eq_filter_map now c' df h] at hc' ⊢
    rw [runCustCheck_eq_filter_map now c df h] at hc ⊢
    rw [runCustCheck_eq_filter_map now c _ hc', runCustCheck_eq_filter_map now c' _ hc]
    rw [List.filter_map, List.filter_map, List.map_map, List.map_map,
      List.filter_filter, List.filter_filter]
    congr 1
    · funext r
      exact custCheckMap_comm c c' r
    · apply List.filter_congr
      intro a _
      simp only [Function.comp_apply]
      rw [custCheckPred_map now c c' hcc a, custCheckPred_map now c' c (Ne.symm hcc) a,
        Bool.and_comm]

theorem applyCustChecks_perm (now : Int) {l l' : List CustCheck} (hp : l.Perm l') :
    ∀ df : List CustomerRow, (∀ r ∈ df, r.customerSince.isSome = true) →
      applyCustChecks now l df = applyCustChecks now l' df := by
  induction hp with
  | nil => intro df _; rfl
  | cons x _ ih =>
    intro df hdf
    simp only [applyCustChecks, List.foldl_cons] at ih ⊢
    exact ih _ (runCustCheck_allParse now x df hdf)
  | swap x y l =>
    intro df hdf
    simp only [applyCustChecks, List.foldl_cons]
    rw [runCustCheck_comm now x y df hdf]
  | trans _ _ ih₁ ih₂ =>
    intro df hdf
    rw [ih₁ df hdf, ih₂ df hdf]

end Analytics

namespace Analytics

theorem titleCase_of_mem_validRegions (x : String)
    (h : validRegions.contains x = true) : titleCase x = x := by
  have hx : x ∈ validRegions := by simpa using h
  simp only [validRegions, List.mem_cons, List.mem_singleton, List.not_mem_nil,
    or_false] at hx
  rcases hx with rfl | rfl | rfl | rfl | rfl <;> decide

theorem customersOutlierSpec_guard (df : List CustomerRow)
    (h : ∀ r ∈ df, r.customerSince.isSome = true) :
    ((df.filter (fun r => decide (0 < r.customerID))).filter
        (fun r => decide (0 ≤ r.totalSpend) && decide (r.totalSpend ≤ 50000))).all
      (fun r => r.customerSince.isSome) = true := by
  rw [List.all_eq_true]
  intro r hr
  exact h r (List.mem_filter.mp (List.mem_filter.mp hr).1).1

theorem removeOutliersCustomers_idem (now : Int) (df : List CustomerRow)
    (h : ∀ r ∈ df, r.customerSince.isSome = true) :
    removeOutliersCustomers now (removeOutliersCustomers now df) =
      removeOutliersCustomers now df := by
  rw [removeOutliersCustomers_eq_spec now df, if_pos (customersOutlierSpec_guard df h)]
  have hmem : ∀ r ∈ customersOutlierSpec now df,
      ∃ s, s ∈ df ∧ custClaimKeep now s = true ∧ r = titleRegion s := by
    intro r hr
    obtain ⟨s, hs, rfl⟩ := List.mem_map.mp hr
    exact ⟨s, (List.mem_filter.mp hs).1, (List.mem_filter.mp hs).2, rfl⟩
  have hrow : ∀ r ∈ customersOutlierSpec now df,
      custClaimKeep now r = true ∧ titleRegion r = r ∧ r.customerSince.isSome = true := by
    intro r hr
    obtain ⟨s, hsdf, hks, rfl⟩ := hmem r hr
    simp only [custClaimKeep, Bool.and_eq_true] at hks
    obtain ⟨⟨⟨⟨hid, hspend⟩, hdate⟩, hregion⟩, hstatus⟩ := hks
    have hfix : titleCase (titleCase s.region) = titleCase s.region :=
      titleCase_of_mem_validRegions _ hregion
    refine ⟨?_, ?_, ?_⟩
    · simp only [custClaimKeep, titleRegion, Bool.and_eq_true]
      exact ⟨⟨⟨⟨hid, hspend⟩, hdate⟩, by simpa [hfix] using hregion⟩, hstatus⟩
    · simp only [titleRegion]
      rw [hfix]
    · simpa [titleRegion] using h s hsdf
  rw [removeOutliersCustomers_eq_spec now (customersOutlierSpec now df),
    if_pos (customersOutlierSpec_guard _ (fun r hr => (hrow r hr).2.2))]
  rw [customersOutlierSpec, List.filter_eq_self.mpr (fun r hr => (hrow r hr).1)]
  conv_rhs => rw [← List.map_id (customersOutlierSpec now df)]
  exact List.map_congr_left (fun r hr => (hrow r hr).2.1)

/-- C7 (counterexample): with a row whose `CustomerSince` does not
parse in the frame, moving the date check to the front changes the
result (the skip condition sees different rows), and applying the
whole step twice differs from applying it once — so the five checks
are neither order-insensitive nor idempotent as claimed. -/
theorem custChecks_order_counterexample :
    ([CustCheck.dateCheck, .idCheck, .spendCheck, .regionCheck, .statusCheck]).Perm
      custCheckOrder ∧
    applyCustChecks 20000
        [CustCheck.dateCheck, .idCheck, .spendCheck, .regionCheck, .statusCheck]
        [custRowBadID, custRowStale] ≠
      applyCustChecks 20000 custCheckOrder [custRowBadID, custRowStale] ∧
    removeOutliersCustomers 20000
        (removeOutliersCustomers 20000 [custRowBadRegion, custRowStale]) ≠
      removeOutliersCustomers 20000 [custRowBadRegion, custRowStale] := by
  decide

/-- C7 (amended): when every `CustomerSince` in the input frame
parses, the five checks are order-insensitive — running them in any
permutation of the implemented order yields the implemented result —
and the whole step is idempotent.  (With an unparseable date in the
frame, neither holds; the skippable date check introduces the
order dependency.) -/
theorem custChecks_order_insensitive_of_parseable (now : Int) (l : List CustCheck)
    (df : List CustomerRow) (hl : l.Perm custCheckOrder)
    (h : ∀ r ∈ df, r.customerSince.isSome = true) :
    applyCustChecks now l df = removeOutliersCustomers now df ∧
    removeOutliersCustomers now (removeOutliersCustomers now df) =
      removeOutliersCustomers now df :=
  ⟨applyCustChecks_perm now hl df h, removeOutliersCustomers_idem now df h⟩

/-- Witness for C7: a concrete reordered run on a parseable frame
agrees with the implemented order and the step is idempotent there. -/
theorem custChecks_order_insensitive_witness :
    applyCustChecks 20000
        [CustCheck.statusCheck, .regionCheck, .dateCheck, .spendCheck, .idCheck]
        [⟨3, "Cal", 100, some 17000, "west", "VIP"⟩] =
      removeOutliersCustomers 20000 [⟨3, "Cal", 100, some 17000, "west", "VIP"⟩] ∧
    removeOutliersCustomers 20000
        (removeOutliersCustomers 20000 [⟨3, "Cal", 100, some 17000, "west", "VIP"⟩]) =
      removeOutliersCustomers 20000 [⟨3, "Cal", 100, some 17000, "west", "VIP"⟩] ∧
    removeOutliersCustomers 20000 [⟨3, "Cal", 100, some 17000, "west", "VIP"⟩] =
      [⟨3, "Cal", 100, some 17000, "West", "VIP"⟩] :=
  ⟨(custChecks_order_insensitive_of_parseable 20000 _ _ (by decide) (by decide)).1,
   (custChecks_order_insensitive_of_parseable 20000
      [CustCheck.statusCheck, .regionCheck, .dateCheck, .spendCheck, .idCheck]
      _ (by decide) (by decide)).2,
   by decide⟩

end Analytics

namespace Analytics

/-! ## Product outlier removal (`prepare_products.py`, `remove_outliers`)

The step runs five stages over the prepared product frame (which has
all the referenced columns, so every `in df.columns` guard is taken):
positive ProductID filter; positive-price filter followed by an
IQR-based price window capped by business limits; non-negative stock
filter followed by an IQR-based upper cap; and non-empty category and
supplier filters.  Quartiles are `Series.quantile` with the default
linear interpolation. -/

/-- A prepared product record as seen by `remove_outliers`. -/
structure ProductRow where
  productid : Int
  productname : String
  productcategory : String
  unitprice : Rat
  stockquantity : Rat
  suppliername : String
  deriving DecidableEq, Repr

/-- Insert into an ascending list. -/
def insertAsc (x : Rat) : List Rat → List Rat
  | [] => [x]
  | y :: ys => if x ≤ y then x :: y :: ys else y :: insertAsc x ys

/-- Ascending sort of the series values. -/
def sortAsc (xs : List Rat) : List Rat := xs.foldr insertAsc []

/-- pandas `Series.quantile(q)` with the default linear interpolation:
position `q * (n - 1)` in the sorted values, interpolated between the
two neighbouring order statistics (0 on an empty series; the code only
calls it on nonempty ones). -/
def seriesQuantile (q : Rat) (xs : List Rat) : Rat :=
  if xs.length = 0 then 0
  else
    let sorted := sortAsc xs
    let h : Rat := q * ((xs.length : Rat) - 1)
    let lo := h.floor
    let a := sorted.getD lo.toNat 0
    let b := sorted.getD h.ceil.toNat 0
    a + (h - (lo : Rat)) * (b - a)

/-- Stage 1 (lines 334-341): keep positive ProductIDs. -/
def prodIdStage (df : List ProductRow) : List ProductRow :=
  df.filter (fun r => decide (0 < r.productid))

/-- Effective lower price bound (lines 355-367): `max(Q1 - 2*IQR,
0.01)` with the quartiles taken over the positive-price subset of the
current frame. -/
def priceEffectiveLower (df : List ProductRow) : Rat :=
  let prices := (df.filter (fun r => decide (0 < r.unitprice))).map (fun r => r.unitprice)
  let q1 := seriesQuantile (1/4) prices
  let q3 := seriesQuantile (3/4) prices
  max (q1 - 2 * (q3 - q1)) (1/100)

/-- Effective upper price bound (lines 355-366): `min(Q3 + 2*IQR,
10000.0)` over the positive-price subset. -/
def priceEffectiveUpper (df : List ProductRow) : Rat :=
  let prices := (df.filter (fun r => decide (0 < r.unitprice))).map (fun r => r.unitprice)
  let q1 := seriesQuantile (1/4) prices
  let q3 := seriesQuantile (3/4) prices
  min (q3 + 2 * (q3 - q1)) 10000

/-- Stage 2 (lines 344-374): drop non-positive prices, then, when the
remaining frame is nonempty, keep prices inside the effective
bounds. -/
def prodPriceStage (df : List ProductRow) : List ProductRow :=
  let pos := df.filter (fun r => decide (0 < r.unitprice))
  if pos.isEmpty then pos
  else pos.filter (fun r =>
    decide (priceEffectiveLower df ≤ r.unitprice) &&
    decide (r.unitprice ≤ priceEffectiveUpper df))

/-- Effective stock upper bound (lines 387-398): `min(Q3 + 2*IQR,
10000)` with quartiles over the non-negative-stock subset of the
current frame. -/
def stockEffectiveUpper (df : List ProductRow) : Rat :=
  let stocks :=
    (df.filter (fun r => decide (0 ≤ r.stockquantity))).map (fun r => r.stockquantity)
  let q1 := seriesQuantile (1/4) stocks
  let q3 := seriesQuantile (3/4) stocks
  min (q3 + 2 * (q3 - q1)) 10000

/-- Stage 3 (lines 377-404): drop negative stock, then, when the
remaining frame is nonempty, cap the stock quantity. -/
def prodStockStage (df : List ProductRow) : List ProductRow :=
  let nn := df.filter (fun r => decide (0 ≤ r.stockquantity))
  if nn.isEmpty then nn
  else nn.filter (fun r => decide (r.stockquantity ≤ stockEffectiveUpper df))

/-- Stage 4 (lines 407-414): drop empty (after stripping) categories. -/
def prodCategoryStage (df : List ProductRow) : List ProductRow :=
  df.filter (fun r => !(r.productcategory.trim == ""))

/-- Stage 5 (lines 416-423): drop empty (after stripping) supplier
names. -/
def prodSupplierStage (df : List ProductRow) : List ProductRow :=
  df.filter (fun r => !(r.suppliername.trim == ""))

/-- `remove_outliers` of `prepare_products.py`: the five stages in
order. -/
def removeOutliersProducts (df : List ProductRow) : List ProductRow :=
  prodSupplierStage (prodCategoryStage (prodStockStage (prodPriceStage (prodIdStage df))))

end Analytics

namespace Analytics

theorem prodPriceStage_pointwise (d : List ProductRow) :
    prodPriceStage d = d.filter (fun r =>
      decide (priceEffectiveLower d ≤ r.unitprice) &&
      decide (r.unitprice ≤ priceEffectiveUpper d)) := by
  have hlo : (1 : Rat)/100 ≤ priceEffectiveLower d := le_max_right _ _
  have key : ∀ r : ProductRow,
      (decide (priceEffectiveLower d ≤ r.unitprice) &&
        decide (r.unitprice ≤ priceEffectiveUpper d)) = true →
      decide (0 < r.unitprice) = true := by
    intro r h
    rw [Bool.and_eq_true] at h
    have h1 := of_decide_eq_true h.1
    exact decide_eq_true (by linarith)
  unfold prodPriceStage
  by_cases hpos : (d.filter (fun r => decide (0 < r.unitprice))).isEmpty
  · rw [if_pos hpos]
    rw [List.isEmpty_iff, List.filter_eq_nil_iff] at hpos
    rw [List.filter_eq_nil_iff.mpr hpos]
    symm
    rw [List.filter_eq_nil_iff]
    intro r hr hcon
    exact hpos r hr (key r hcon)
  · rw [if_neg hpos, List.filter_filter]
    apply List.filter_congr
    intro r _
    cases hR : (decide (priceEffectiveLower d ≤ r.unitprice) &&
        decide (r.unitprice ≤ priceEffectiveUpper d)) with
    | false => simp
    | true => simp [key r hR]

theorem prodStockStage_pointwise (d : List ProductRow) :
    prodStockStage d = d.filter (fun r =>
      decide (0 ≤ r.stockquantity) &&
      decide (r.stockquantity ≤ stockEffectiveUpper d)) := by
  unfold prodStockStage
  by_cases hnn : (d.filter (fun r => decide (0 ≤ r.stockquantity))).isEmpty
  · rw [if_pos hnn]
    rw [List.isEmpty_iff, List.filter_eq_nil_iff] at hnn
    rw [List.filter_eq_nil_iff.mpr hnn]
    symm
    rw [List.filter_eq_nil_iff]
    intro r hr hcon
    rw [Bool.and_eq_true] at hcon
    exact hnn r hr hcon.1
  · rw [if_neg hnn, List.filter_filter]
    apply List.filter_congr
    intro r _
    rw [Bool.and_comm]

/-- C6: inside the products outlier step, the unit-price filter and
the stock filter are pointwise: a row survives the price filter
exactly when its own `unitprice` lies in
`[max(Q1 - 2*IQR, 0.01), min(Q3 + 2*IQR, 10000)]`, with the quartiles
computed once from the positive-price subset of the incoming frame,
and a row survives the stock filter exactly when
`0 <= stockquantity <= min(Q3 + 2*IQR, 10000)` with quartiles over the
non-negative-stock subset — no other inter-row dependency exists in
either filter. -/
theorem removeOutliersProducts_aggregate_filters :
    (∀ d : List ProductRow,
      prodPriceStage d = d.filter (fun r =>
        decide (priceEffectiveLower d ≤ r.unitprice) &&
        decide (r.unitprice ≤ priceEffectiveUpper d))) ∧
    (∀ d : List ProductRow,
      prodStockStage d = d.filter (fun r =>
        decide (0 ≤ r.stockquantity) &&
        decide (r.stockquantity ≤ stockEffectiveUpper d))) ∧
    removeOutliersProducts =
      fun df =>
        prodSupplierStage
          (prodCategoryStage (prodStockStage (prodPriceStage (prodIdStage df)))) :=
  ⟨prodPriceStage_pointwise, prodStockStage_pointwise, rfl⟩

end Analytics

namespace Analytics

/-! ## Date dimension (`load_warehouse.py`, `load_dates`)

`load_dates` parses the prepared sales transaction dates, takes their
minimum and maximum, generates one row per calendar day of
`pd.date_range(min, max, freq="D")` and derives the columns of each
row from the day.  Dates are modelled as proleptic-Gregorian
`(year, month, day)` triples; `Date.ordinal` counts days since
0001-01-01 (a Monday), so `ordinal % 7` is the pandas `dayofweek`
(Monday = 0). -/

/-- Gregorian leap-year rule. -/
def isLeapYear (y : Nat) : Bool :=
  (y % 4 = 0 && !(y % 100 = 0)) || y % 400 = 0

/-- Days in a month of a given year. -/
def daysInMonth (y m : Nat) : Nat :=
  if m = 2 then (if isLeapYear y then 29 else 28)
  else if m = 4 ∨ m = 6 ∨ m = 9 ∨ m = 11 then 30
  else 31

/-- A calendar date. -/
structure Date where
  year : Nat
  month : Nat
  day : Nat
  deriving DecidableEq, Repr

/-- A well-formed calendar date (year at least 1). -/
def Date.Valid (d : Date) : Prop :=
  1 ≤ d.year ∧ 1 ≤ d.month ∧ d.month ≤ 12 ∧ 1 ≤ d.day ∧
    d.day ≤ daysInMonth d.year d.month

instance (d : Date) : Decidable d.Valid := by
  unfold Date.Valid
  infer_instance

/-- `int(d.strftime("%Y%m%d"))`: the YYYYMMDD integer encoding. -/
def Date.key (d : Date) : Nat := d.year * 10000 + d.month * 100 + d.day

/-- The next calendar day (the `freq="D"` step of `pd.date_range`). -/
def Date.next (d : Date) : Date :=
  if d.day < daysInMonth d.year d.month then ⟨d.year, d.month, d.day + 1⟩
  else if d.month < 12 then ⟨d.year, d.month + 1, 1⟩
  else ⟨d.year + 1, 1, 1⟩

/-- Days in the months of year `y` strictly before month `m`. -/
def monthsDaysBefore (y m : Nat) : Nat :=
  (List.range (m - 1)).foldl (fun acc i => acc + daysInMonth y (i + 1)) 0

/-- Days since 0001-01-01 in the proleptic Gregorian calendar. -/
def Date.ordinal (d : Date) : Nat :=
  365 * (d.year - 1) + (d.year - 1) / 4 - (d.year - 1) / 100 + (d.year - 1) / 400
    + monthsDaysBefore d.year d.month + (d.day - 1)

/-- `d.strftime("%B")`. -/
def monthName : Nat → String
  | 1 => "January"
  | 2 => "February"
  | 3 => "March"
  | 4 => "April"
  | 5 => "May"
  | 6 => "June"
  | 7 => "July"
  | 8 => "August"
  | 9 => "September"
  | 10 => "October"
  | 11 => "November"
  | 12 => "December"
  | _ => ""

/-- `d.strftime("%A")` from the Monday-based weekday number. -/
def dayName : Nat → String
  | 0 => "Monday"
  | 1 => "Tuesday"
  | 2 => "Wednesday"
  | 3 => "Thursday"
  | 4 => "Friday"
  | 5 => "Saturday"
  | 6 => "Sunday"
  | _ => ""

/-- One row of the dates dimension produced by `load_dates`
(lines 125-138 of `load_warehouse.py`). -/
structure DateDimRow where
  date_key : Nat
  full_date : Date
  year : Nat
  quarter : Nat
  month : Nat
  month_name : String
  day : Nat
  day_of_week : Nat
  day_name : String
  is_weekend : Nat
  deriving DecidableEq, Repr

/-- The row built for one day of the range. -/
def mkDateDimRow (d : Date) : DateDimRow :=
  { date_key := d.key
  , full_date := d
  , year := d.year
  , quarter := (d.month - 1) / 3 + 1
  , month := d.month
  , month_name := monthName d.month
  , day := d.day
  , day_of_week := d.ordinal % 7
  , day_name := dayName (d.ordinal % 7)
  , is_weekend := if 5 ≤ d.ordinal % 7 then 1 else 0 }

/-- `pd.date_range(cur, last, freq="D")`, driven by enough fuel. -/
def dateRangeAux : Nat → Date → Date → List Date
  | 0, _, _ => []
  | fuel + 1, cur, last =>
    if cur.key ≤ last.key then cur :: dateRangeAux fuel cur.next last
    else []

/-- All days from `start` to `last` inclusive. -/
def dateRange (start last : Date) : List Date :=
  dateRangeAux (last.key + 1 - start.key) start last

/-- `Series.min()` over the parsed transaction dates. -/
def minTransactionDate : List Date → Date
  | [] => ⟨1970, 1, 1⟩
  | d :: ds => ds.foldl (fun a b => if b.key < a.key then b else a) d

/-- `Series.max()` over the parsed transaction dates. -/
def maxTransactionDate : List Date → Date
  | [] => ⟨1970, 1, 1⟩
  | d :: ds => ds.foldl (fun a b => if a.key < b.key then b else a) d

/-- `load_dates` (lines 104-144 of `load_warehouse.py`): one dimension
row per day between the minimum and maximum transaction dates of the
prepared sales file. -/
def loadDates (sales : List Date) : List DateDimRow :=
  (dateRange (minTransactionDate sales) (maxTransactionDate sales)).map mkDateDimRow

end Analytics

namespace Analytics

theorem daysInMonth_pos (y m : Nat) : 1 ≤ daysInMonth y m := by
  unfold daysInMonth
  split_ifs <;> omega

theorem daysInMonth_le (y m : Nat) : daysInMonth y m ≤ 31 := by
  unfold daysInMonth
  split_ifs <;> omega

theorem Date.next_valid {d : Date} (h : d.Valid) : d.next.Valid := by
  obtain ⟨y, m, dd⟩ := d
  simp only [Date.Valid] at h ⊢
  obtain ⟨hy, hm1, hm12, hd1, hdD⟩ := h
  have hp2 : 1 ≤ daysInMonth y (m + 1) := daysInMonth_pos _ _
  have hp3 : 1 ≤ daysInMonth (y + 1) 1 := daysInMonth_pos _ _
  simp only [Date.next]
  split_ifs with h1 h2 <;> simp only <;> omega

theorem Date.key_lt_next {d : Date} (h : d.Valid) : d.key < d.next.key := by
  obtain ⟨y, m, dd⟩ := d
  simp only [Date.Valid] at h
  obtain ⟨hy, hm1, hm12, hd1, hdD⟩ := h
  have h31 : daysInMonth y m ≤ 31 := daysInMonth_le y m
  simp only [Date.next, Date.key]
  split_ifs with h1 h2 <;> simp only <;> omega

theorem Date.key_injective_valid {d e : Date} (hd : d.Valid) (he : e.Valid)
    (h : d.key = e.key) : d = e := by
  obtain ⟨y, m, dd⟩ := d
  obtain ⟨y', m', dd'⟩ := e
  simp only [Date.Valid] at hd he
  obtain ⟨hy, hm1, hm12, hd1, hdD⟩ := hd
  obtain ⟨hy', hm1', hm12', hd1', hdD'⟩ := he
  have h31 : daysInMonth y m ≤ 31 := daysInMonth_le y m
  have h31' : daysInMonth y' m' ≤ 31 := daysInMonth_le y' m'
  simp only [Date.key] at h
  simp only [Date.mk.injEq]
  omega

theorem Date.next_key_le {d e : Date} (hd : d.Valid) (he : e.Valid)
    (h : d.key < e.key) : d.next.key ≤ e.key := by
  obtain ⟨y, m, dd⟩ := d
  obtain ⟨y', m', dd'⟩ := e
  simp only [Date.Valid] at hd he
  obtain ⟨hy, hm1, hm12, hd1, hdD⟩ := hd
  obtain ⟨hy', hm1', hm12', hd1', hdD'⟩ := he
  have h31 : daysInMonth y m ≤ 31 := daysInMonth_le y m
  have h31' : daysInMonth y' m' ≤ 31 := daysInMonth_le y' m'
  simp only [Date.key] at h ⊢
  simp only [Date.next]
  split_ifs with h1 h2 <;> simp only [Date.key]
  · omega
  · rcases Nat.lt_trichotomy y y' with hy2 | rfl | hy2
    · omega
    · rcases Nat.lt_trichotomy m m' with hm2 | rfl | hm2 <;> omega
    · omega
  · rcases Nat.lt_trichotomy y y' with hy2 | rfl | hy2
    · omega
    · rcases Nat.lt_trichotomy m m' with hm2 | rfl | hm2 <;> omega
    · omega

end Analytics

namespace Analytics

theorem dateRangeAux_eq_nil {fuel : Nat} {cur stop : Date} (h : stop.key < cur.key) :
    dateRangeAux fuel cur stop = [] := by
  cases fuel with
  | zero => rfl
  | succ f => rw [dateRangeAux, if_neg (by omega)]

theorem dateRangeAux_spec :
    ∀ (fuel : Nat) (cur stop : Date), cur.Valid → stop.Valid →
      cur.key ≤ stop.key → stop.key + 1 - cur.key ≤ fuel →
      (dateRangeAux fuel cur stop).head? = some cur ∧
      (dateRangeAux fuel cur stop).getLast? = some stop ∧
      List.Chain' (fun a b => b = Date.next a) (dateRangeAux fuel cur stop) ∧
      List.Chain' (fun a b => a.key < b.key) (dateRangeAux fuel cur stop) ∧
      (∀ x ∈ dateRangeAux fuel cur stop, x.Valid) := by
  intro fuel
  induction fuel with
  | zero =>
    intro cur stop _ _ hle hf
    exact absurd hf (by omega)
  | succ f ih =>
    intro cur stop hcv hsv hle hfuel
    rw [dateRangeAux, if_pos hle]
    by_cases heq : cur.key = stop.key
    · have hcs : cur = stop := Date.key_injective_valid hcv hsv heq
      subst hcs
      have hnil : dateRangeAux f cur.next cur = [] :=
        dateRangeAux_eq_nil (Date.key_lt_next hcv)
      rw [hnil]
      refine ⟨rfl, rfl, by simp, by simp, ?_⟩
      intro x hx
      rcases List.mem_singleton.mp hx with rfl
      exact hcv
    · have hlt : cur.key < stop.key := lt_of_le_of_ne hle heq
      have hnv := Date.next_valid hcv
      have hnk := Date.next_key_le hcv hsv hlt
      have hkn := Date.key_lt_next hcv
      have hfuel' : stop.key + 1 - cur.next.key ≤ f := by omega
      obtain ⟨ihh, ihl, ihc1, ihc2, ihv⟩ := ih cur.next stop hnv hsv hnk hfuel'
      have hne : dateRangeAux f cur.next stop ≠ [] := by
        intro hc
        rw [hc] at ihh
        simp at ihh
      refine ⟨rfl, ?_, ?_, ?_, ?_⟩
      · rcases hrest : dateRangeAux f cur.next stop with _ | ⟨r0, rs⟩
        · exact absurd hrest hne
        · rw [hrest] at ihl
          rw [List.getLast?_cons_cons]
          exact ihl
      · rw [List.chain'_cons']
        refine ⟨?_, ihc1⟩
        intro b hb
        rw [ihh] at hb
        simp at hb
        subst hb
        rfl
      · rw [List.chain'_cons']
        refine ⟨?_, ihc2⟩
        intro b hb
        rw [ihh] at hb
        simp at hb
        subst hb
        exact hkn
      · intro x hx
        rcases List.mem_cons.mp hx with rfl | hx'
        · exact hcv
        · exact ihv x hx'

theorem dateRange_spec (start stop : Date) (hsv : start.Valid) (hev : stop.Valid)
    (hle : start.key ≤ stop.key) :
    (dateRange start stop).head? = some start ∧
    (dateRange start stop).getLast? = some stop ∧
    List.Chain' (fun a b => b = Date.next a) (dateRange start stop) ∧
    List.Chain' (fun a b => a.key < b.key) (dateRange start stop) ∧
    (∀ x ∈ dateRange start stop, x.Valid) :=
  dateRangeAux_spec (stop.key + 1 - start.key) start stop hsv hev hle (le_refl _)

end Analytics

namespace Analytics

theorem foldlMinDate_spec :
    ∀ (ds : List Date) (a : Date),
      (ds.foldl (fun a b => if b.key < a.key then b else a) a ∈ a :: ds) ∧
      (ds.foldl (fun a b => if b.key < a.key then b else a) a).key ≤ a.key ∧
      (∀ x ∈ ds, (ds.foldl (fun a b => if b.key < a.key then b else a) a).key ≤ x.key) := by
  intro ds
  induction ds with
  | nil =>
    intro a
    exact ⟨List.mem_singleton.mpr rfl, le_refl _, by simp⟩
  | cons b bs ih =>
    intro a
    simp only [List.foldl_cons]
    by_cases hba : b.key < a.key
    · rw [if_pos hba]
      obtain ⟨hmem, hle, hall⟩ := ih b
      refine ⟨?_, by omega, ?_⟩
      · rcases List.mem_cons.mp hmem with h | h
        · rw [h]
          exact List.mem_cons_of_mem _ (List.mem_cons_self _ _)
        · exact List.mem_cons_of_mem _ (List.mem_cons_of_mem _ h)
      · intro x hx
        rcases List.mem_cons.mp hx with rfl | hx'
        · exact hle
        · exact hall x hx'
    · rw [if_neg hba]
      obtain ⟨hmem, hle, hall⟩ := ih a
      refine ⟨?_, hle, ?_⟩
      · rcases List.mem_cons.mp hmem with h | h
        · rw [h]
          exact List.mem_cons_self _ _
        · exact List.mem_cons_of_mem _ (List.mem_cons_of_mem _ h)
      · intro x hx
        rcases List.mem_cons.mp hx with rfl | hx'
        · omega
        · exact hall x hx'

theorem foldlMaxDate_spec :
    ∀ (ds : List Date) (a : Date),
      (ds.foldl (fun a b => if a.key < b.key then b else a) a ∈ a :: ds) ∧
      a.key ≤ (ds.foldl (fun a b => if a.key < b.key then b else a) a).key ∧
      (∀ x ∈ ds, x.key ≤ (ds.foldl (fun a b => if a.key < b.key then b else a) a).key) := by
  intro ds
  induction ds with
  | nil =>
    intro a
    exact ⟨List.mem_singleton.mpr rfl, le_refl _, by simp⟩
  | cons b bs ih =>
    intro a
    simp only [List.foldl_cons]
    by_cases hba : a.key < b.key
    · rw [if_pos hba]
      obtain ⟨hmem, hle, hall⟩ := ih b
      refine ⟨?_, by omega, ?_⟩
      · rcases List.mem_cons.mp hmem with h | h
        · rw [h]
          exact List.mem_cons_of_mem _ (List.mem_cons_self _ _)
        · exact List.mem_cons_of_mem _ (List.mem_cons_of_mem _ h)
      · intro x hx
        rcases List.mem_cons.mp hx with rfl | hx'
        · exact hle
        · exact hall x hx'
    · rw [if_neg hba]
      obtain ⟨hmem, hle, hall⟩ := ih a
      refine ⟨?_, hle, ?_⟩
      · rcases List.mem_cons.mp hmem with h | h
        · rw [h]
          exact List.mem_cons_self _ _
        · exact List.mem_cons_of_mem _ (List.mem_cons_of_mem _ h)
      · intro x hx
        rcases List.mem_cons.mp hx with rfl | hx'
        · omega
        · exact hall x hx'

theorem minTransactionDate_spec (sales : List Date) (h : sales ≠ []) :
    minTransactionDate sales ∈ sales ∧
    ∀ x ∈ sales, (minTransactionDate sales).key ≤ x.key := by
  rcases sales with _ | ⟨d, ds⟩
  · exact absurd rfl h
  · unfold minTransactionDate
    obtain ⟨hmem, hle, hall⟩ := foldlMinDate_spec ds d
    refine ⟨hmem, ?_⟩
    intro x hx
    rcases List.mem_cons.mp hx with rfl | hx'
    · exact hle
    · exact hall x hx'

theorem maxTransactionDate_spec (sales : List Date) (h : sales ≠ []) :
    maxTransactionDate sales ∈ sales ∧
    ∀ x ∈ sales, x.key ≤ (maxTransactionDate sales).key := by
  rcases sales with _ | ⟨d, ds⟩
  · exact absurd rfl h
  · unfold maxTransactionDate
    obtain ⟨hmem, hle, hall⟩ := foldlMaxDate_spec ds d
    refine ⟨hmem, ?_⟩
    intro x hx
    rcases List.mem_cons.mp hx with rfl | hx'
    · exact hle
    · exact hall x hx'

end Analytics

namespace Analytics

/-- C10: every row `load_dates` emits has `date_key` equal to the
YYYYMMDD integer encoding of `full_date` and `is_weekend` equal to 1
exactly when `day_of_week` is 5 or 6 and 0 otherwise; and (for a
nonempty prepared sales file with well-formed dates) the emitted days
are exactly one per calendar day from the minimum to the maximum
transaction date — the day column starts at the minimum, ends at the
maximum, each row's day is the calendar successor of the previous
row's, and the `date_key` column has no duplicates. -/
theorem loadDates_invariants (sales : List Date) (hne : sales ≠ [])
    (hval : ∀ d ∈ sales, d.Valid) :
    (∀ row ∈ loadDates sales,
      row.date_key =
        row.full_date.year * 10000 + row.full_date.month * 100 + row.full_date.day ∧
      (row.is_weekend = 1 ↔ (row.day_of_week = 5 ∨ row.day_of_week = 6)) ∧
      (row.is_weekend = 0 ↔ ¬(row.day_of_week = 5 ∨ row.day_of_week = 6)) ∧
      row.day_of_week < 7) ∧
    ((loadDates sales).map DateDimRow.full_date).head? =
      some (minTransactionDate sales) ∧
    ((loadDates sales).map DateDimRow.full_date).getLast? =
      some (maxTransactionDate sales) ∧
    List.Chain' (fun a b => b = Date.next a)
      ((loadDates sales).map DateDimRow.full_date) ∧
    ((loadDates sales).map (fun r => r.date_key)).Nodup ∧
    minTransactionDate sales ∈ sales ∧
    (∀ x ∈ sales, (minTransactionDate sales).key ≤ x.key) ∧
    maxTransactionDate sales ∈ sales ∧
    (∀ x ∈ sales, x.key ≤ (maxTransactionDate sales).key) := by
  obtain ⟨hminMem, hminAll⟩ := minTransactionDate_spec sales hne
  obtain ⟨hmaxMem, hmaxAll⟩ := maxTransactionDate_spec sales hne
  have hminV := hval _ hminMem
  have hmaxV := hval _ hmaxMem
  have hkeyle : (minTransactionDate sales).key ≤ (maxTransactionDate sales).key :=
    hmaxAll _ hminMem
  obtain ⟨hh, hl, hc1, hc2, hv⟩ := dateRange_spec _ _ hminV hmaxV hkeyle
  have hmapFD : (loadDates sales).map DateDimRow.full_date =
      dateRange (minTransactionDate sales) (maxTransactionDate sales) := by
    unfold loadDates
    rw [List.map_map]
    have : (DateDimRow.full_date ∘ mkDateDimRow) = id := funext (fun d => rfl)
    rw [this, List.map_id]
  refine ⟨?_, ?_, ?_, ?_, ?_, hminMem, hminAll, hmaxMem, hmaxAll⟩
  · intro row hrow
    obtain ⟨d, hd, rfl⟩ := List.mem_map.mp hrow
    have hw : d.ordinal % 7 < 7 := Nat.mod_lt _ (by norm_num)
    refine ⟨rfl, ?_, ?_, hw⟩
    · simp only [mkDateDimRow]
      split_ifs with h5 <;> simp <;> omega
    · simp only [mkDateDimRow]
      split_ifs with h5 <;> simp <;> omega
  · rw [hmapFD]
    exact hh
  · rw [hmapFD]
    exact hl
  · rw [hmapFD]
    exact hc1
  · have hmapK : (loadDates sales).map (fun r => r.date_key) =
        (dateRange (minTransactionDate sales) (maxTransactionDate sales)).map Date.key := by
      unfold loadDates
      rw [List.map_map]
      exact List.map_congr_left (fun d _ => rfl)
    rw [hmapK]
    have hchain : List.Chain' (· < ·)
        ((dateRange (minTransactionDate sales) (maxTransactionDate sales)).map Date.key) :=
      List.chain'_map_of_chain' Date.key (fun {a b} h => h) hc2
    exact (List.chain'_iff_pairwise.mp hchain).nodup

/-- Witness for C10: a two-transaction sales file spanning a month
boundary produces the four keys 20240130-20240202 with no gaps, and
the emitted day column forms a successor chain. -/
theorem loadDates_invariants_witness :
    (loadDates [⟨2024, 2, 2⟩, ⟨2024, 1, 30⟩]).map (fun r => r.date_key) =
      [20240130, 20240131, 20240201, 20240202] ∧
    List.Chain' (fun a b => b = Date.next a)
      ((loadDates [⟨2024, 2, 2⟩, ⟨2024, 1, 30⟩]).map DateDimRow.full_date) := by
  constructor
  · decide
  · exact (loadDates_invariants [⟨2024, 2, 2⟩, ⟨2024, 1, 30⟩] (by decide)
      (by decide)).2.2.2.1

end Analytics
